import Mathlib

/-!
The `ModuloHashLoadBalance` selector

A shallow embedding of `trpc/naming/common/util/loadbalance/hash/modulohash_load_balance.cc`
and the properties of its operations `IsLoadBalanceInfoDiff`, `GenerateKeysAsString`, `Hash`,
`Update` and `Next`.

Conventions of the embedding:

* a C++ pointer that may be null is an `Option`;
* the member `callee_router_infos_` (a map from service name to `InnerEndpointInfos`) is passed
  explicitly as a `Table`, a finite partial function given by its lookup;
* machine integers are natural numbers, reduced modulo `2^w` where the source can wrap or
  truncate (the counter increment and the `uint32_t id` in `Next`);
* undefined behaviour (the integer division by zero of `% num` in `Hash`) is the result `none`.
-/

namespace trpc

/-! ## Data model -/

/-- Modelled from the spec: the declaration of `TrpcEndpointInfo` is not part of the source
file. The fields `host`, `port` and `status` are the ones the source reads; `weight` stands for
the remaining payload of an endpoint, which the spec says is never consulted. -/
structure TrpcEndpointInfo where
  host : String
  port : Int
  status : Int
  weight : Nat
  deriving DecidableEq, Repr

/-- Modelled from the spec: `naming::LoadBalanceSelectorConfig`, the extended selection
configuration, with `hash_args` (the key composition, a `std::vector<uint32_t>`) and
`hash_func` (the algorithm name). -/
structure LoadBalanceSelectorConfig where
  hash_args : List Nat
  hash_func : String
  deriving DecidableEq, Repr

/-- Modelled from the spec: the content of the `std::any` that `extend_select_info` points to.
It either holds a `LoadBalanceSelectorConfig` or something of another type. -/
inductive StdAny where
  | loadBalanceSelectorConfig (c : LoadBalanceSelectorConfig)
  | other
  deriving DecidableEq, Repr

/-- Modelled from the spec: `SelectorInfo`, the routing attributes of one call. `policy` is the
enum value as an `int`, `extend_select_info` is a pointer that may be null. -/
structure SelectorInfo where
  name : String
  policy : Int
  select_num : Int
  load_balance_name : String
  is_from_workflow : Bool
  extend_select_info : Option StdAny
  deriving DecidableEq, Repr

/-- Modelled from the spec: `LoadBalanceInfo`, the argument of `Update`: two pointers, each of
which may be null. -/
structure LoadBalanceInfo where
  info : Option SelectorInfo
  endpoints : Option (List TrpcEndpointInfo)
  deriving DecidableEq, Repr

/-- Modelled from the spec: `LoadBalanceResult`, the in/out argument of `Next`. `result` is
`none` as long as no endpoint has been written to it. -/
structure LoadBalanceResult where
  info : Option SelectorInfo
  result : Option TrpcEndpointInfo
  deriving DecidableEq, Repr

/-- Modelled from the spec: `InnerEndpointInfos`, the router entry: the endpoint list and the
64-bit unsigned counter `hash`. -/
structure InnerEndpointInfos where
  endpoints : List TrpcEndpointInfo
  hash : Nat
  deriving DecidableEq, Repr

/-- The member `callee_router_infos_`, by its lookup. -/
abbrev Table := String → Option InnerEndpointInfos

/-- The table of a freshly constructed load balancer. -/
def Table.empty : Table := fun _ => none

/-- The assignment `callee_router_infos_[name] = entry`. -/
def Table.assign (t : Table) (name : String) (entry : InnerEndpointInfos) : Table :=
  fun n => if n = name then some entry else t n

/-- What `hash_func.h` and the configuration header provide and the source file only uses: the
three recognised algorithm names, the four hash functions, and the default-constructed
configuration. They are parameters of the embedding. -/
structure HashFuncs where
  MD5HASH : String
  BKDRHASH : String
  FNV1AHASH : String
  MD5Hash : String → Nat
  BKDRHash : String → Nat
  FNV1aHash : String → Nat
  MurMurHash3 : String → Nat
  defaultConfig : LoadBalanceSelectorConfig

/-! ## The operations of the source file -/

/-- The loop of `IsLoadBalanceInfoDiff` (source lines 50-60): walks the new endpoints together
with the cached ones, after the sizes were found equal. The position `int i` of the source is
the depth of the recursion; it cannot overflow on a list of fewer than `2^31` endpoints. -/
def endpointsDiff : List TrpcEndpointInfo → List TrpcEndpointInfo → Bool
  | orig_endpoint :: origs, var :: vars =>
    if orig_endpoint.host ≠ var.host ∨ orig_endpoint.port ≠ var.port then true
    else if orig_endpoint.status ≠ var.status then true
    else endpointsDiff origs vars
  | _, _ => false

/-- `ModuloHashLoadBalance::IsLoadBalanceInfoDiff` (source lines 32-63). -/
def IsLoadBalanceInfoDiff (t : Table) (info : Option LoadBalanceInfo) : Bool :=
  match info with
  | none => false
  | some i =>
    match i.info, i.endpoints with
    | some select_info, some new_endpoints =>
      match t select_info.name with
      | none => true
      | some entry =>
        if entry.endpoints.length ≠ new_endpoints.length then true
        else endpointsDiff entry.endpoints new_endpoints
    | _, _ => false

/-- One pass through the `switch` of `GenerateKeysAsString` (source lines 68-79). No case ends
in a `break`, so control falls through from the matching case to the end of the switch. An index
that is none of 0..4 (after the conversion of the `uint32_t` to `int`) matches no case. -/
def switchIndex (info : SelectorInfo) (key : String) (index : Nat) : String :=
  let case4 (k : String) : String := k ++ toString (if info.is_from_workflow then 1 else 0 : Int)
  let case3 (k : String) : String := case4 (k ++ info.load_balance_name)
  let case2 (k : String) : String := case3 (k ++ toString info.select_num)
  let case1 (k : String) : String := case2 (k ++ toString info.policy)
  let case0 (k : String) : String := case1 (k ++ info.name)
  match index with
  | 0 => case0 key
  | 1 => case1 key
  | 2 => case2 key
  | 3 => case3 key
  | 4 => case4 key
  | _ => key

/-- `ModuloHashLoadBalance::GenerateKeysAsString` (source lines 65-82). -/
def GenerateKeysAsString (info : SelectorInfo) (indexs : List Nat) : String :=
  indexs.foldl (switchIndex info) ""

/-- `ModuloHashLoadBalance::Hash` (source lines 84-94). `x % 0` is undefined behaviour in C++:
the result is `none` then. -/
def Hash (d : HashFuncs) (input : String) (num : Nat) (hash_func : String) : Option Nat :=
  if num = 0 then none
  else if hash_func = d.MD5HASH then some (d.MD5Hash input % num)
  else if hash_func = d.BKDRHASH then some (d.BKDRHash input % num)
  else if hash_func = d.FNV1AHASH then some (d.FNV1aHash input % num)
  else some (d.MurMurHash3 input % num)

/-- The configuration `Update` works with (source lines 103-112): the default-constructed one,
overwritten when `extend_select_info` is non-null and holds a `LoadBalanceSelectorConfig`. -/
def loadbalance_config (d : HashFuncs) (select_info : SelectorInfo) : LoadBalanceSelectorConfig :=
  match select_info.extend_select_info with
  | some (StdAny.loadBalanceSelectorConfig c) => c
  | _ => d.defaultConfig

/-- `ModuloHashLoadBalance::Update` (source lines 97-127). The result is the returned `int`
and the table afterwards; `none` when the call runs into the undefined behaviour of `Hash`. -/
def Update (d : HashFuncs) (t : Table) (info : Option LoadBalanceInfo) : Option (Int × Table) :=
  match info with
  | none => some (-1, t)
  | some i =>
    match i.info, i.endpoints with
    | some select_info, some endpoints =>
      let cfg := loadbalance_config d select_info
      if IsLoadBalanceInfoDiff t info then
        match Hash d (GenerateKeysAsString select_info cfg.hash_args) endpoints.length
            cfg.hash_func with
        | none => none
        | some h => some (0, t.assign select_info.name { endpoints := endpoints, hash := h })
      else some (0, t)
    | _, _ => some (-1, t)

/-- `ModuloHashLoadBalance::Next` (source lines 129-155). The result is the returned `int`, the
table afterwards and the in/out argument afterwards. `__sync_fetch_and_add` returns the value of
the 64-bit counter before the addition and stores the sum, which wraps at `2^64`; the returned
value is converted to the `uint32_t id`, which keeps its low 32 bits. -/
def Next (t : Table) (result : LoadBalanceResult) : Int × Table × LoadBalanceResult :=
  match result.info with
  | none => (-1, t, result)
  | some info =>
    match t info.name with
    | none => (-1, t, result)
    | some entry =>
      let endpoints_num := entry.endpoints.length
      if endpoints_num < 1 then (-1, t, result)
      else
        let id := entry.hash % 2 ^ 32
        let index := id % endpoints_num
        (0, t.assign info.name { entry with hash := (entry.hash + 1) % 2 ^ 64 },
          { result with result := entry.endpoints[index]? })

/-! ## Concrete data for evaluating the model -/

/-- A sample instantiation of the parameters: toy hash functions over the key length. -/
def sampleFuncs : HashFuncs where
  MD5HASH := "md5"
  BKDRHASH := "bkdr"
  FNV1AHASH := "fnv1a"
  MD5Hash := fun s => s.length
  BKDRHash := fun s => s.length + 1
  FNV1aHash := fun s => 2 * s.length + 1
  MurMurHash3 := fun s => 3 * s.length
  defaultConfig := { hash_args := [], hash_func := "" }

/-- Endpoint `A` of the spec's example scenario (port 80, healthy). -/
def epA : TrpcEndpointInfo := { host := "A", port := 80, status := 0, weight := 100 }

/-- Endpoint `B` of the spec's example scenario (port 80, healthy). -/
def epB : TrpcEndpointInfo := { host := "B", port := 80, status := 0, weight := 100 }

/-- A third endpoint. -/
def epC : TrpcEndpointInfo := { host := "C", port := 8080, status := 0, weight := 100 }

/-- Sample routing attributes for the service `svcX`. -/
def svcX : SelectorInfo :=
  { name := "svcX", policy := 0, select_num := 1, load_balance_name := "lb",
    is_from_workflow := false, extend_select_info := none }

/-- The argument of `Next` for the service `svcX`, with nothing written to it yet. -/
def reqX : LoadBalanceResult := { info := some svcX, result := none }

/-- The routing attributes of `svcX` with an extended selection configuration: the key is
composed of attribute 0 and hashed with the algorithm named `md5`. -/
def svcXmd5 : SelectorInfo :=
  { svcX with
    extend_select_info :=
      some (StdAny.loadBalanceSelectorConfig { hash_args := [0], hash_func := "md5" }) }

/-- A table whose entry for `svcX` has three endpoints and a counter that no longer fits in 32
bits. -/
def wideTable : Table :=
  Table.empty.assign "svcX" { endpoints := [epA, epB, epC], hash := 2 ^ 32 }

/-- The table in the spec's example scenario right after seeding: the entry of `svcX` holds
the endpoints `[A, B]` and the counter 1. -/
def seededAB : Table :=
  Table.empty.assign "svcX" { endpoints := [epA, epB], hash := 1 }

/-- The table after `k` consecutive `Next` calls with the argument `r`. -/
def tableAfterNext : Nat → Table → LoadBalanceResult → Table
  | 0, t, _ => t
  | k + 1, t, r => tableAfterNext k (Next t r).2.1 r

/-- The endpoint lists agree in length and, at every position, in host, port and status. -/
def SameAtEveryPosition (cached observed : List TrpcEndpointInfo) : Prop :=
  cached.length = observed.length
    ∧ ∀ (k : Nat) (h1 : k < cached.length) (h2 : k < observed.length),
        cached[k].host = observed[k].host ∧ cached[k].port = observed[k].port
          ∧ cached[k].status = observed[k].status

/-- The size an endpoint list may have: the source indexes the list with an `int` (the `i` of
`IsLoadBalanceInfoDiff`) and with a `uint32_t` (the `index` of `Next`). -/
def WellSized (endpoints : List TrpcEndpointInfo) : Prop :=
  endpoints.length < 2 ^ 31

/-- The three recognised algorithm names are three different names. -/
def HashFuncs.DistinctNames (d : HashFuncs) : Prop :=
  d.MD5HASH ≠ d.BKDRHASH ∧ d.MD5HASH ≠ d.FNV1AHASH ∧ d.BKDRHASH ≠ d.FNV1AHASH

/-- One call of a public operation of the load balancer, with its argument. -/
inductive Call where
  | update (info : Option LoadBalanceInfo)
  | next (result : LoadBalanceResult)

/-- The table after a sequence of calls, each of which has returned; `none` when one of the
calls runs into the undefined behaviour of `Hash`. -/
def runCalls (d : HashFuncs) : Table → List Call → Option Table
  | t, [] => some t
  | t, Call.update info :: rest =>
    match Update d t info with
    | none => none
    | some (_, t2) => runCalls d t2 rest
  | t, Call.next result :: rest => runCalls d (Next t result).2.1 rest

/-! ## The contracts in the words of the spec -/

/-- Modelled from the spec: the Hash Strategy of section 4.1, `Hash(algorithmName, input)`: the
value of the algorithm the name identifies, an unrecognised name falling back to the default
algorithm. The caller takes the result modulo the endpoint count. -/
def HashStrategy (d : HashFuncs) (algorithmName : String) (input : String) : Nat :=
  if algorithmName = d.MD5HASH then d.MD5Hash input
  else if algorithmName = d.BKDRHASH then d.BKDRHash input
  else if algorithmName = d.FNV1AHASH then d.FNV1aHash input
  else d.MurMurHash3 input

/-- Modelled from the spec: the string representation of the single attribute an index names
(section 4.2 and the data model): 0 the service name, 1 the policy as an integer, 2 the
requested count, 3 the load-balance name, 4 is-from-workflow; nothing for another index. -/
def attributeString (attrs : SelectorInfo) (index : Nat) : String :=
  match index with
  | 0 => attrs.name
  | 1 => toString attrs.policy
  | 2 => toString attrs.select_num
  | 3 => attrs.load_balance_name
  | 4 => toString (if attrs.is_from_workflow then 1 else 0 : Int)
  | _ => ""

/-- Modelled from the spec: the Key Composer of section 4.2, `ComposeKey(attrs, fieldIndices)`:
for each index in order, the corresponding attribute's string representation is appended. -/
def ComposeKey (attrs : SelectorInfo) (fieldIndices : List Nat) : String :=
  fieldIndices.foldl (fun key index => key ++ attributeString attrs index) ""

/-! ## Basic facts -/

theorem Table.assign_same (t : Table) (name : String) (e : InnerEndpointInfos) :
    t.assign name e name = some e := by
  simp [Table.assign]

theorem Table.assign_other (t : Table) (name : String) (e : InnerEndpointInfos) (n : String)
    (h : n ≠ name) : t.assign name e n = t n := by
  simp [Table.assign, h]

/-- With a non-zero modulus, `Hash` is the Hash Strategy's value modulo `num`. -/
theorem Hash_eq_HashStrategy (d : HashFuncs) (input : String) (num : Nat) (hash_func : String)
    (hnum : num ≠ 0) :
    Hash d input num hash_func = some (HashStrategy d hash_func input % num) := by
  unfold Hash HashStrategy
  rw [if_neg hnum]
  split_ifs <;> rfl

/-- With the modulus zero, `Hash` divides by zero. -/
theorem Hash_zero (d : HashFuncs) (input : String) (hash_func : String) :
    Hash d input 0 hash_func = none := by
  simp [Hash]

/-- What `Next` does on an entry with at least one endpoint. -/
theorem Next_of_entry (t : Table) (r : LoadBalanceResult) (info : SelectorInfo)
    (entry : InnerEndpointInfos) (hr : r.info = some info) (ht : t info.name = some entry)
    (hN : 1 ≤ entry.endpoints.length) :
    Next t r = (0, t.assign info.name { entry with hash := (entry.hash + 1) % 2 ^ 64 },
      { r with result := entry.endpoints[entry.hash % 2 ^ 32 % entry.endpoints.length]? }) := by
  unfold Next
  simp only [hr, ht]
  rw [if_neg (by omega)]

/-- What `Update` does when the new information differs and the endpoint list is not empty. -/
theorem Update_of_diff (d : HashFuncs) (t : Table) (i : LoadBalanceInfo) (si : SelectorInfo)
    (obs : List TrpcEndpointInfo) (hi : i.info = some si) (he : i.endpoints = some obs)
    (hne : obs ≠ []) (hdiff : IsLoadBalanceInfoDiff t (some i) = true) :
    Update d t (some i) = some (0, t.assign si.name
      { endpoints := obs,
        hash := HashStrategy d (loadbalance_config d si).hash_func
          (GenerateKeysAsString si (loadbalance_config d si).hash_args) % obs.length }) := by
  have hlen : obs.length ≠ 0 := by
    intro h
    exact hne (List.length_eq_zero.mp h)
  unfold Update
  simp only [hi, he, hdiff, if_true, Hash_eq_HashStrategy d _ _ _ hlen]

/-- The loop of `IsLoadBalanceInfoDiff` finds no difference exactly when the lists agree at
every position they share. -/
theorem endpointsDiff_eq_false_iff (a b : List TrpcEndpointInfo) :
    endpointsDiff a b = false ↔
      ∀ (k : Nat) (h1 : k < a.length) (h2 : k < b.length),
        a[k].host = b[k].host ∧ a[k].port = b[k].port ∧ a[k].status = b[k].status := by
  induction a generalizing b with
  | nil =>
    constructor
    · intro _ k h1
      exact absurd h1 (by simp)
    · intro _
      simp [endpointsDiff]
  | cons x xs ih =>
    cases b with
    | nil =>
      constructor
      · intro _ k _ h2
        exact absurd h2 (by simp)
      · intro _
        simp [endpointsDiff]
    | cons y ys =>
      constructor
      · intro h k h1 h2
        unfold endpointsDiff at h
        split_ifs at h with c1 c2
        have hx : x.host = y.host ∧ x.port = y.port := by
          constructor
          · by_contra hh
            exact c1 (Or.inl hh)
          · by_contra hh
            exact c1 (Or.inr hh)
        have hs : x.status = y.status := by
          by_contra hh
          exact c2 hh
        cases k with
        | zero => exact ⟨hx.1, hx.2, hs⟩
        | succ j =>
          have h1j : j < xs.length := by simpa using h1
          have h2j : j < ys.length := by simpa using h2
          simpa using (ih ys).mp h j h1j h2j
      · intro h
        have h0 := h 0 (by simp) (by simp)
        simp only [List.getElem_cons_zero] at h0
        unfold endpointsDiff
        rw [if_neg (by
          intro hc
          rcases hc with hc | hc
          · exact hc h0.1
          · exact hc h0.2.1), if_neg (by
          intro hc
          exact hc h0.2.2)]
        refine (ih ys).mpr ?_
        intro k h1 h2
        have := h (k + 1) (by simpa using h1) (by simpa using h2)
        simpa using this

/-- `IsLoadBalanceInfoDiff` with both pointers present, by the three rules of the source. -/
theorem IsLoadBalanceInfoDiff_eq_false_iff (t : Table) (i : LoadBalanceInfo) (si : SelectorInfo)
    (obs : List TrpcEndpointInfo) (hi : i.info = some si) (he : i.endpoints = some obs) :
    IsLoadBalanceInfoDiff t (some i) = false ↔
      ∃ e, t si.name = some e ∧ SameAtEveryPosition e.endpoints obs := by
  unfold IsLoadBalanceInfoDiff SameAtEveryPosition
  simp only [hi, he]
  cases hte : t si.name with
  | none => simp
  | some e =>
    by_cases hlen : e.endpoints.length = obs.length
    · simp [hlen, endpointsDiff_eq_false_iff]
    · simp [hlen]

/-- `Update` without a difference returns 0 and keeps the table. -/
theorem Update_of_not_diff (d : HashFuncs) (t : Table) (i : LoadBalanceInfo) (si : SelectorInfo)
    (obs : List TrpcEndpointInfo) (hi : i.info = some si) (he : i.endpoints = some obs)
    (hdiff : IsLoadBalanceInfoDiff t (some i) = false) :
    Update d t (some i) = some (0, t) := by
  unfold Update
  simp [hi, he, hdiff]

/-- The entry of a service after `k` consecutive `Next` calls: the endpoints are the same and
the counter has advanced by `k`, wrapping at `2^64`. -/
theorem tableAfterNext_entry (r : LoadBalanceResult) (ri : SelectorInfo)
    (eps : List TrpcEndpointInfo) (hr : r.info = some ri) (hN : 1 ≤ eps.length) (k : Nat) :
    ∀ (t : Table) (c : Nat), c < 2 ^ 64 → t ri.name = some { endpoints := eps, hash := c } →
      tableAfterNext k t r ri.name = some { endpoints := eps, hash := (c + k) % 2 ^ 64 } := by
  induction k with
  | zero =>
    intro t c hc ht
    simp only [tableAfterNext, Nat.add_zero]
    rw [ht, Nat.mod_eq_of_lt hc]
  | succ k ih =>
    intro t c hc ht
    simp only [tableAfterNext]
    rw [Next_of_entry t r ri _ hr ht hN]
    have h2 := ih (t.assign ri.name { endpoints := eps, hash := (c + 1) % 2 ^ 64 })
      ((c + 1) % 2 ^ 64) (Nat.mod_lt _ (by norm_num)) (Table.assign_same _ _ _)
    rw [h2]
    congr 2
    omega

/-- For `s < n` and `k < n` the sum `s + k` wraps at most once modulo `n`. -/
theorem add_mod_of_lt (s k n : Nat) (hs : s < n) (hk : k < n) :
    (s + k) % n = if s + k < n then s + k else s + k - n := by
  split_ifs with h
  · exact Nat.mod_eq_of_lt h
  · rw [Nat.mod_eq_sub_mod (by omega)]
    exact Nat.mod_eq_of_lt (by omega)

/-- A differing `Update` whose routing attributes carry a configuration takes the key
composition and the algorithm name from that configuration. -/
theorem Update_of_diff_config (d : HashFuncs) (t : Table) (i : LoadBalanceInfo)
    (si : SelectorInfo) (obs : List TrpcEndpointInfo) (cfg : LoadBalanceSelectorConfig)
    (hi : i.info = some si) (he : i.endpoints = some obs)
    (hc : si.extend_select_info = some (StdAny.loadBalanceSelectorConfig cfg))
    (hne : obs ≠ []) (hdiff : IsLoadBalanceInfoDiff t (some i) = true) :
    Update d t (some i) = some (0, t.assign si.name
      { endpoints := obs,
        hash := HashStrategy d cfg.hash_func (GenerateKeysAsString si cfg.hash_args)
          % obs.length }) := by
  have hcfg : loadbalance_config d si = cfg := by
    unfold loadbalance_config
    rw [hc]
  rw [Update_of_diff d t i si obs hi he hne hdiff, hcfg]

/-- A differing `Update` with a non-empty list: the table afterwards and the seed it stores. -/
theorem Update_differing_seed_aux (d : HashFuncs) (t : Table) (i : LoadBalanceInfo)
    (si : SelectorInfo) (obs : List TrpcEndpointInfo) (hi : i.info = some si)
    (he : i.endpoints = some obs) (hne : obs ≠ [])
    (hdiff : IsLoadBalanceInfoDiff t (some i) = true) :
    ∃ t2 : Table, Update d t (some i) = some (0, t2)
      ∧ t2 si.name = some
          { endpoints := obs,
            hash := HashStrategy d (loadbalance_config d si).hash_func
              (GenerateKeysAsString si (loadbalance_config d si).hash_args) % obs.length }
      ∧ HashStrategy d (loadbalance_config d si).hash_func
          (GenerateKeysAsString si (loadbalance_config d si).hash_args) % obs.length
          < obs.length :=
  ⟨_, Update_of_diff d t i si obs hi he hne hdiff, Table.assign_same _ _ _,
    Nat.mod_lt _ (List.length_pos.mpr hne)⟩

/-- An index above 4 leaves the key as it is. -/
theorem switchIndex_out_of_range (info : SelectorInfo) (key : String) (index : Nat)
    (h : 4 < index) : switchIndex info key index = key := by
  match index, h with
  | n + 5, _ => rfl

/-- The switch appends to the key what it appends to the empty key. -/
theorem switchIndex_append (info : SelectorInfo) (key : String) (index : Nat) :
    switchIndex info key index = key ++ switchIndex info "" index := by
  match index with
  | 0 => simp [switchIndex, String.append_assoc]
  | 1 => simp [switchIndex, String.append_assoc]
  | 2 => simp [switchIndex, String.append_assoc]
  | 3 => simp [switchIndex, String.append_assoc]
  | 4 => simp [switchIndex, String.append_assoc]
  | n + 5 => simp [switchIndex]

/-- The loop of `GenerateKeysAsString` started from a key `key` is `key` followed by what the
loop gives from the empty key. -/
theorem foldl_switchIndex_append (info : SelectorInfo) (indexs : List Nat) :
    ∀ key : String, indexs.foldl (switchIndex info) key
      = key ++ indexs.foldl (switchIndex info) "" := by
  induction indexs with
  | nil =>
    intro key
    simp
  | cons i rest ih =>
    intro key
    simp only [List.foldl_cons]
    rw [ih (switchIndex info key i), ih (switchIndex info "" i), switchIndex_append info key i,
      String.append_assoc]

/-- Indices above 4 can be dropped from the loop of `GenerateKeysAsString`. -/
theorem foldl_switchIndex_filter (info : SelectorInfo) (indexs : List Nat) :
    ∀ key : String, indexs.foldl (switchIndex info) key
      = (indexs.filter fun i => decide (i ≤ 4)).foldl (switchIndex info) key := by
  induction indexs with
  | nil =>
    intro key
    rfl
  | cons i rest ih =>
    intro key
    by_cases hi : i ≤ 4
    · simp only [List.foldl_cons, List.filter_cons, hi, decide_True, if_true]
      exact ih _
    · simp only [List.foldl_cons, List.filter_cons, hi, decide_False, Bool.false_eq_true,
        if_false]
      rw [switchIndex_out_of_range info key i (by omega)]
      exact ih _

/-- The two outcomes of an `Update` call that returns: the table is as before, or the entry of
the named service was assigned a non-empty endpoint list. -/
theorem Update_cases (d : HashFuncs) (t : Table) (info : Option LoadBalanceInfo) (code : Int)
    (t2 : Table) (h : Update d t info = some (code, t2)) :
    t2 = t ∨ ∃ (i : LoadBalanceInfo) (si : SelectorInfo) (obs : List TrpcEndpointInfo) (s : Nat),
      info = some i ∧ i.info = some si ∧ i.endpoints = some obs ∧ obs ≠ []
        ∧ t2 = t.assign si.name { endpoints := obs, hash := s } := by
  cases info with
  | none =>
    left
    simp only [Update, Option.some.injEq, Prod.mk.injEq] at h
    exact h.2.symm
  | some i =>
    cases hi : i.info with
    | none =>
      left
      simp only [Update, hi, Option.some.injEq, Prod.mk.injEq] at h
      exact h.2.symm
    | some si =>
      cases he : i.endpoints with
      | none =>
        left
        simp only [Update, hi, he, Option.some.injEq, Prod.mk.injEq] at h
        exact h.2.symm
      | some obs =>
        cases hdiff : IsLoadBalanceInfoDiff t (some i) with
        | false =>
          left
          rw [Update_of_not_diff d t i si obs hi he hdiff] at h
          simp only [Option.some.injEq, Prod.mk.injEq] at h
          exact h.2.symm
        | true =>
          by_cases hne : obs = []
          · exfalso
            subst hne
            simp [Update, hi, he, hdiff, Hash_zero] at h
          · right
            rw [Update_of_diff d t i si obs hi he hne hdiff] at h
            simp only [Option.some.injEq, Prod.mk.injEq] at h
            exact ⟨i, si, obs, _, rfl, hi, he, hne, h.2.symm⟩

/-- The two outcomes of a `Next` call for the table: it is as before, or the counter of the
named service's entry, whose endpoint list is not empty, was advanced. -/
theorem Next_cases (t : Table) (r : LoadBalanceResult) :
    (Next t r).2.1 = t ∨ ∃ (ri : SelectorInfo) (e : InnerEndpointInfos),
      r.info = some ri ∧ t ri.name = some e ∧ e.endpoints ≠ []
        ∧ (Next t r).2.1 = t.assign ri.name { e with hash := (e.hash + 1) % 2 ^ 64 } := by
  cases hr : r.info with
  | none =>
    left
    simp [Next, hr]
  | some ri =>
    cases hte : t ri.name with
    | none =>
      left
      simp [Next, hr, hte]
    | some e =>
      by_cases hlen : e.endpoints.length = 0
      · left
        simp [Next, hr, hte, hlen]
      · right
        have hne : e.endpoints ≠ [] := fun h => hlen (List.length_eq_zero.mpr h)
        refine ⟨ri, e, rfl, hte, hne, ?_⟩
        rw [Next_of_entry t r ri e hr hte (by omega)]

/-- An `Update` call returns unless its endpoint list is present and empty. -/
theorem Update_returns (d : HashFuncs) (t : Table) (info : Option LoadBalanceInfo)
    (h : ∀ i, info = some i → i.endpoints ≠ some []) :
    ∃ (code : Int) (t2 : Table), Update d t info = some (code, t2) := by
  cases info with
  | none => exact ⟨-1, t, rfl⟩
  | some i =>
    cases hi : i.info with
    | none => exact ⟨-1, t, by simp only [Update, hi]⟩
    | some si =>
      cases he : i.endpoints with
      | none => exact ⟨-1, t, by simp only [Update, hi, he]⟩
      | some obs =>
        have hne : obs ≠ [] := by
          intro hnil
          exact h i rfl (by rw [he, hnil])
        cases hdiff : IsLoadBalanceInfoDiff t (some i) with
        | true => exact ⟨_, _, Update_of_diff d t i si obs hi he hne hdiff⟩
        | false => exact ⟨_, _, Update_of_not_diff d t i si obs hi he hdiff⟩

/-- Every call that returns keeps the property that no entry has an empty endpoint list: an
entry without endpoints can only come from an `Update` that passed the division by zero. -/
theorem runCalls_entries_nonempty (d : HashFuncs) (calls : List Call) :
    ∀ (t0 t : Table), (∀ name e, t0 name = some e → e.endpoints ≠ []) →
      runCalls d t0 calls = some t → ∀ name e, t name = some e → e.endpoints ≠ [] := by
  induction calls with
  | nil =>
    intro t0 t h0 hrun
    simp only [runCalls, Option.some.injEq] at hrun
    rw [← hrun]
    exact h0
  | cons c rest ih =>
    intro t0 t h0 hrun
    cases c with
    | update info =>
      cases hu : Update d t0 info with
      | none => simp [runCalls, hu] at hrun
      | some res =>
        obtain ⟨code, t2⟩ := res
        simp only [runCalls, hu] at hrun
        refine ih t2 t ?_ hrun
        rcases Update_cases d t0 info code t2 hu with h | ⟨i, si, obs, s, _, _, _, hne, h⟩
        · rw [h]
          exact h0
        · intro name e hte
          rw [h] at hte
          by_cases hn : name = si.name
          · rw [hn, Table.assign_same] at hte
            rw [← Option.some.inj hte]
            exact hne
          · rw [Table.assign_other _ _ _ _ hn] at hte
            exact h0 name e hte
    | next r =>
      simp only [runCalls] at hrun
      refine ih _ t ?_ hrun
      rcases Next_cases t0 r with h | ⟨ri, e0, _, _, hne, h⟩
      · rw [h]
        exact h0
      · intro name e hte
        rw [h] at hte
        by_cases hn : name = ri.name
        · rw [hn, Table.assign_same] at hte
          rw [← Option.some.inj hte]
          exact hne
        · rw [Table.assign_other _ _ _ _ hn] at hte
          exact h0 name e hte

/-- Joining strings after a first one. -/
theorem foldl_append_start (l : List String) :
    ∀ acc : String, l.foldl (fun r x => r ++ x) acc = acc ++ l.foldl (fun r x => r ++ x) "" := by
  induction l with
  | nil =>
    intro acc
    simp
  | cons x rest ih =>
    intro acc
    simp only [List.foldl_cons]
    rw [ih (acc ++ x), ih ("" ++ x), String.empty_append, String.append_assoc]

/-- The generated key of a sequence, one index after the other. -/
theorem GenerateKeysAsString_cons (info : SelectorInfo) (i : Nat) (rest : List Nat) :
    GenerateKeysAsString info (i :: rest)
      = GenerateKeysAsString info [i] ++ GenerateKeysAsString info rest := by
  unfold GenerateKeysAsString
  simp only [List.foldl_cons, List.foldl_nil]
  exact foldl_switchIndex_append info rest _

/-! ## Properties of the operations -/

/-- C1 (the code at the failing input): on an entry with three endpoints whose 64-bit counter is
`2^32`, `Next` succeeds and advances the counter to `2^32 + 1`, but it returns the endpoint at
index 0, while `2^32 mod 3 = 1`: the pre-increment value is cut to its low 32 bits before the
modulo is taken. -/
theorem Next_cuts_counter_to_32_bits :
    (Next wideTable reqX).1 = 0
      ∧ (Next wideTable reqX).2.2.result = some epA
      ∧ [epA, epB, epC][2 ^ 32 % 3]? = some epB
      ∧ (Next wideTable reqX).2.1 "svcX"
          = some { endpoints := [epA, epB, epC], hash := 2 ^ 32 + 1 } := by
  decide

/-- C2 (the code at the failing input): `Update` for `svcX` with the key composition `[0]`, the
algorithm name `md5` and the observed endpoints `[A, B]` finds a difference on the empty table,
returns 0 and stores the observed list, and for every choice of hash functions the counter it
stores is the hash of the fallen-through key `svcX01lb0` modulo 2, not the hash of the composed
key `svcX`; with the sample hash functions the stored counter is 1 where the composed key
gives 0. -/
theorem Update_seed_hashes_fallen_through_key :
    (∀ d : HashFuncs,
        ∃ t2 : Table,
          Update d Table.empty (some { info := some svcXmd5, endpoints := some [epA, epB] })
            = some (0, t2)
          ∧ t2 "svcX" = some
              { endpoints := [epA, epB], hash := HashStrategy d "md5" "svcX01lb0" % 2 })
      ∧ ComposeKey svcXmd5 [0] = "svcX"
      ∧ (∃ t2 : Table,
          Update sampleFuncs Table.empty
              (some { info := some svcXmd5, endpoints := some [epA, epB] }) = some (0, t2)
          ∧ t2 "svcX" = some { endpoints := [epA, epB], hash := 1 })
      ∧ HashStrategy sampleFuncs "md5" (ComposeKey svcXmd5 [0]) % [epA, epB].length = 0 := by
  have hkey : GenerateKeysAsString svcXmd5 [0] = "svcX01lb0" := by decide
  have hgen : ∀ d : HashFuncs,
      ∃ t2 : Table,
        Update d Table.empty (some { info := some svcXmd5, endpoints := some [epA, epB] })
          = some (0, t2)
        ∧ t2 "svcX" = some
            { endpoints := [epA, epB], hash := HashStrategy d "md5" "svcX01lb0" % 2 } := by
    intro d
    have hu := Update_of_diff_config d Table.empty
      { info := some svcXmd5, endpoints := some [epA, epB] } svcXmd5 [epA, epB]
      { hash_args := [0], hash_func := "md5" } rfl rfl rfl (by decide) rfl
    refine ⟨_, hu, ?_⟩
    have hname : svcXmd5.name = "svcX" := rfl
    rw [hname, Table.assign_same, hkey]
    rfl
  refine ⟨hgen, by decide, ?_, by decide⟩
  obtain ⟨t2, hu, ht2⟩ := hgen sampleFuncs
  exact ⟨t2, hu, by rw [ht2]; rfl⟩

/-- C3 (the code at the failing input): `Update` called with a present but empty endpoint list
does not return -1. On a table without an entry for the name, and on a table whose entry for
the name has endpoints, the information counts as different and `Hash` is called with the
modulus 0: the call divides by zero. -/
theorem Update_empty_list_divides_by_zero :
    Update sampleFuncs Table.empty (some { info := some svcX, endpoints := some [] }) = none
      ∧ Update sampleFuncs wideTable (some { info := some svcX, endpoints := some [] })
          = none := by
  constructor <;> rfl

/-- C4 (the code at the failing input): for the index sequence `[0]` the generated key is not
the service name alone: the switch falls through and appends the policy, the requested count,
the load-balance name and is-from-workflow as well. -/
theorem GenerateKeysAsString_falls_through :
    GenerateKeysAsString svcX [0] = "svcX01lb0"
      ∧ ComposeKey svcX [0] = "svcX"
      ∧ GenerateKeysAsString svcX [0] ≠ ComposeKey svcX [0] := by
  decide

/-- C5: when the table has an entry for the service name and the observed endpoint list has the
same length as the cached one and the same host, port and status at every position, `Update`
returns 0 and leaves the whole table as it was, whatever the current counter, the routing
attributes, the key composition, the algorithm name and the hash functions are; a `Next` that
follows returns what it returns without that `Update`. -/
theorem Update_unchanged_is_noop (d : HashFuncs) (t : Table) (i : LoadBalanceInfo)
    (si : SelectorInfo) (obs : List TrpcEndpointInfo) (e : InnerEndpointInfos)
    (hi : i.info = some si) (he : i.endpoints = some obs) (hte : t si.name = some e)
    (hsame : SameAtEveryPosition e.endpoints obs) :
    Update d t (some i) = some (0, t)
      ∧ ∀ (t2 : Table) (r : LoadBalanceResult),
          Update d t (some i) = some (0, t2) → Next t2 r = Next t r := by
  have hnd : IsLoadBalanceInfoDiff t (some i) = false :=
    (IsLoadBalanceInfoDiff_eq_false_iff t i si obs hi he).mpr ⟨e, hte, hsame⟩
  have hu := Update_of_not_diff d t i si obs hi he hnd
  refine ⟨hu, ?_⟩
  intro t2 r h2
  rw [hu] at h2
  have : t = t2 := by
    have := Option.some.inj h2
    exact (Prod.mk.inj this).2
  rw [this]

theorem Update_unchanged_is_noop_witness :
    Update sampleFuncs wideTable
        (some { info := some svcX,
                endpoints := some [{ epA with weight := 1 }, epB, { epC with weight := 7 }] })
      = some (0, wideTable)
      ∧ ∀ (t2 : Table) (r : LoadBalanceResult),
          Update sampleFuncs wideTable
              (some { info := some svcX,
                      endpoints := some [{ epA with weight := 1 }, epB,
                        { epC with weight := 7 }] })
            = some (0, t2) → Next t2 r = Next wideTable r :=
  Update_unchanged_is_noop sampleFuncs wideTable
    { info := some svcX,
      endpoints := some [{ epA with weight := 1 }, epB, { epC with weight := 7 }] }
    svcX [{ epA with weight := 1 }, epB, { epC with weight := 7 }]
    { endpoints := [epA, epB, epC], hash := 2 ^ 32 } rfl rfl rfl
    ⟨rfl, (endpointsDiff_eq_false_iff _ _).mp (by decide)⟩

/-- C6: with the routing attributes and the endpoint list present, `IsLoadBalanceInfoDiff`
returns false if and only if the table has an entry for the name whose endpoint list has the
length of the observed list and, at every position, the same host, port and status; so an
observed list that is a reordering of the cached one and differs from it at some position in
host, port or status is reported as different. -/
theorem IsLoadBalanceInfoDiff_false_iff_positional (t : Table) (i : LoadBalanceInfo)
    (si : SelectorInfo) (obs : List TrpcEndpointInfo) (hi : i.info = some si)
    (he : i.endpoints = some obs) :
    (IsLoadBalanceInfoDiff t (some i) = false ↔
        ∃ e, t si.name = some e ∧ e.endpoints.length = obs.length
          ∧ ∀ (k : Nat) (h1 : k < e.endpoints.length) (h2 : k < obs.length),
              e.endpoints[k].host = obs[k].host ∧ e.endpoints[k].port = obs[k].port
                ∧ e.endpoints[k].status = obs[k].status)
      ∧ ∀ e, t si.name = some e → obs.Perm e.endpoints →
          (∃ (k : Nat) (h1 : k < e.endpoints.length) (h2 : k < obs.length),
              ¬ (e.endpoints[k].host = obs[k].host ∧ e.endpoints[k].port = obs[k].port
                ∧ e.endpoints[k].status = obs[k].status)) →
          IsLoadBalanceInfoDiff t (some i) = true := by
  have key := IsLoadBalanceInfoDiff_eq_false_iff t i si obs hi he
  refine ⟨key, ?_⟩
  intro e hte _ hex
  obtain ⟨k, h1, h2, hk⟩ := hex
  by_contra hcon
  have hf : IsLoadBalanceInfoDiff t (some i) = false := by simpa using hcon
  obtain ⟨e2, hte2, hsame⟩ := key.mp hf
  have hee : e2 = e := by
    rw [hte] at hte2
    exact (Option.some.inj hte2).symm
  subst hee
  exact hk (hsame.2 k h1 h2)

theorem IsLoadBalanceInfoDiff_false_iff_positional_witness :
    IsLoadBalanceInfoDiff wideTable
        (some { info := some svcX, endpoints := some [epB, epA, epC] }) = true :=
  (IsLoadBalanceInfoDiff_false_iff_positional wideTable
    { info := some svcX, endpoints := some [epB, epA, epC] } svcX [epB, epA, epC] rfl rfl).2
    { endpoints := [epA, epB, epC], hash := 2 ^ 32 } rfl
    (List.Perm.swap epA epB [epC])
    ⟨0, by decide, by decide, by decide⟩

/-- C7: after an `Update` that finds a difference and stores a non-empty list of `N` endpoints
(an endpoint list being one of a size the source can index) with the seed `s`, the `N` `Next`
calls for that service that follow succeed and return, in order, the endpoints at the indices
`s mod N`, `(s+1) mod N`, ..., `(s+N-1) mod N`, and every index below `N` is the index of exactly
one of these calls. -/
theorem Next_round_robin_after_Update (d : HashFuncs) (t : Table) (i : LoadBalanceInfo)
    (si : SelectorInfo) (obs : List TrpcEndpointInfo) (r : LoadBalanceResult)
    (ri : SelectorInfo) (hi : i.info = some si) (he : i.endpoints = some obs) (hne : obs ≠ [])
    (hsz : WellSized obs) (hdiff : IsLoadBalanceInfoDiff t (some i) = true)
    (hr : r.info = some ri) (hname : ri.name = si.name) :
    ∃ (t2 : Table) (s : Nat), Update d t (some i) = some (0, t2)
      ∧ t2 si.name = some { endpoints := obs, hash := s }
      ∧ (∀ k, k < obs.length →
          (Next (tableAfterNext k t2 r) r).1 = 0
            ∧ ∃ ep, obs[(s + k) % obs.length]? = some ep
                ∧ (Next (tableAfterNext k t2 r) r).2.2.result = some ep)
      ∧ ∀ j, j < obs.length → ∃! k, k < obs.length ∧ (s + k) % obs.length = j := by
  have hpos : 0 < obs.length := List.length_pos.mpr hne
  have hlt : obs.length < 2 ^ 31 := hsz
  obtain ⟨t2, hu, ht2, hs⟩ := Update_differing_seed_aux d t i si obs hi he hne hdiff
  refine ⟨t2, _, hu, ht2, ?_, ?_⟩
  · intro k hk
    generalize HashStrategy d (loadbalance_config d si).hash_func
      (GenerateKeysAsString si (loadbalance_config d si).hash_args) % obs.length = s at ht2 hs
    have hent := tableAfterNext_entry r ri obs hr hpos k t2 s (by omega) (hname ▸ ht2)
    rw [Next_of_entry _ r ri _ hr hent hpos]
    refine ⟨rfl, ?_⟩
    have h64 : (s + k) % 2 ^ 64 = s + k := Nat.mod_eq_of_lt (by omega)
    have h32 : (s + k) % 2 ^ 32 = s + k := Nat.mod_eq_of_lt (by omega)
    simp only [h64, h32]
    have hidx : (s + k) % obs.length < obs.length := Nat.mod_lt _ hpos
    exact ⟨obs[(s + k) % obs.length], List.getElem?_eq_getElem hidx,
      List.getElem?_eq_getElem hidx⟩
  · intro j hj
    generalize HashStrategy d (loadbalance_config d si).hash_func
      (GenerateKeysAsString si (loadbalance_config d si).hash_args) % obs.length = s at ht2 hs
    by_cases hjs : s ≤ j
    · refine ⟨j - s, ⟨by omega, ?_⟩, ?_⟩
      · rw [add_mod_of_lt s (j - s) _ hs (by omega)]
        split_ifs <;> omega
      · rintro k ⟨hk, hkj⟩
        rw [add_mod_of_lt s k _ hs hk] at hkj
        split_ifs at hkj <;> omega
    · refine ⟨j + obs.length - s, ⟨by omega, ?_⟩, ?_⟩
      · rw [add_mod_of_lt s (j + obs.length - s) _ hs (by omega)]
        split_ifs <;> omega
      · rintro k ⟨hk, hkj⟩
        rw [add_mod_of_lt s k _ hs hk] at hkj
        split_ifs at hkj <;> omega

theorem Next_round_robin_after_Update_witness :
    ∃ (t2 : Table) (s : Nat),
      Update sampleFuncs Table.empty (some { info := some svcX, endpoints := some [epA, epB, epC] })
        = some (0, t2)
      ∧ t2 svcX.name = some { endpoints := [epA, epB, epC], hash := s }
      ∧ (∀ k, k < [epA, epB, epC].length →
          (Next (tableAfterNext k t2 reqX) reqX).1 = 0
            ∧ ∃ ep, [epA, epB, epC][(s + k) % [epA, epB, epC].length]? = some ep
                ∧ (Next (tableAfterNext k t2 reqX) reqX).2.2.result = some ep)
      ∧ ∀ j, j < [epA, epB, epC].length →
          ∃! k, k < [epA, epB, epC].length ∧ (s + k) % [epA, epB, epC].length = j :=
  Next_round_robin_after_Update sampleFuncs Table.empty
    { info := some svcX, endpoints := some [epA, epB, epC] } svcX [epA, epB, epC] reqX svcX
    rfl rfl (by decide) (by simp [WellSized]) (by decide) rfl rfl

/-- C8 (the claim fails): in the example scenario, with the endpoints `[A, B]` and the counter
just seeded to 1, the first `Next` does not return `A`. -/
theorem example_scenario_first_Next_is_not_A :
    ¬ ((Next seededAB reqX).2.2.result = some epA) := by
  decide

/-- C8 (amended): on an entry with the endpoints `[A, B]` whose counter was just seeded to 1,
the first `Next` returns the endpoint at index `1 mod 2 = 1`, that is `B`, the second `Next`
the one at index `2 mod 2 = 0`, that is `A`, and the third the one at index `3 mod 2 = 1`, that
is `B` again: the index is taken from the counter value before the increment. -/
theorem example_scenario_Next_sequence (t : Table) (r : LoadBalanceResult) (ri : SelectorInfo)
    (A B : TrpcEndpointInfo) (hr : r.info = some ri)
    (ht : t ri.name = some { endpoints := [A, B], hash := 1 }) :
    (Next t r).2.2.result = some B
      ∧ (Next (tableAfterNext 1 t r) r).2.2.result = some A
      ∧ (Next (tableAfterNext 2 t r) r).2.2.result = some B := by
  have h1 := tableAfterNext_entry r ri [A, B] hr (by simp) 1 t 1 (by norm_num) ht
  have h2 := tableAfterNext_entry r ri [A, B] hr (by simp) 2 t 1 (by norm_num) ht
  refine ⟨?_, ?_, ?_⟩
  · rw [Next_of_entry t r ri _ hr ht (by simp)]
    simp
  · rw [Next_of_entry _ r ri _ hr h1 (by simp)]
    simp
  · rw [Next_of_entry _ r ri _ hr h2 (by simp)]
    simp

theorem example_scenario_Next_sequence_witness :
    (Next seededAB reqX).2.2.result = some epB
      ∧ (Next (tableAfterNext 1 seededAB reqX) reqX).2.2.result = some epA
      ∧ (Next (tableAfterNext 2 seededAB reqX) reqX).2.2.result = some epB :=
  example_scenario_Next_sequence seededAB reqX svcX epA epB rfl rfl

/-- C9: for a `Next` call that names a service, the call fails (returns -1) if and only if the
table has no entry for the name or the entry's endpoint list has length zero; otherwise it
returns 0. Whenever it fails, the table is the same afterwards (no counter is advanced) and
nothing is written to the result. -/
theorem Next_fails_iff (t : Table) (r : LoadBalanceResult) (ri : SelectorInfo)
    (hr : r.info = some ri) :
    ((Next t r).1 = -1 ↔
        (t ri.name = none ∨ ∃ e, t ri.name = some e ∧ e.endpoints.length = 0))
      ∧ ((Next t r).1 = -1 ∨ (Next t r).1 = 0)
      ∧ ((Next t r).1 = -1 → (Next t r).2.1 = t ∧ (Next t r).2.2 = r) := by
  cases hte : t ri.name with
  | none =>
    have hn : Next t r = (-1, t, r) := by
      unfold Next
      simp only [hr, hte]
    simp [hn]
  | some e =>
    by_cases hlen : e.endpoints.length = 0
    · have hn : Next t r = (-1, t, r) := by
        unfold Next
        simp only [hr, hte]
        rw [if_pos (by omega)]
      have hnil : e.endpoints = [] := List.length_eq_zero.mp hlen
      simp [hn, hnil]
    · rw [Next_of_entry t r ri e hr hte (by omega)]
      have hnil : e.endpoints ≠ [] := fun h => hlen (List.length_eq_zero.mpr h)
      simp [hnil]

theorem Next_fails_iff_witness :
    ((Next Table.empty reqX).1 = -1 ↔
        (Table.empty svcX.name = none
          ∨ ∃ e, Table.empty svcX.name = some e ∧ e.endpoints.length = 0))
      ∧ ((Next Table.empty reqX).1 = -1 ∨ (Next Table.empty reqX).1 = 0)
      ∧ ((Next Table.empty reqX).1 = -1 →
          (Next Table.empty reqX).2.1 = Table.empty ∧ (Next Table.empty reqX).2.2 = reqX) :=
  Next_fails_iff Table.empty reqX svcX rfl

/-- C10: `Update` called with a null argument, with null routing attributes or with a null
endpoint list returns -1 and leaves the table as it was; called with all three present and a
non-empty endpoint list it returns 0. -/
theorem Update_return_value (d : HashFuncs) (t : Table) :
    Update d t none = some (-1, t)
      ∧ (∀ i : LoadBalanceInfo, i.info = none ∨ i.endpoints = none →
          Update d t (some i) = some (-1, t))
      ∧ ∀ (i : LoadBalanceInfo) (si : SelectorInfo) (obs : List TrpcEndpointInfo),
          i.info = some si → i.endpoints = some obs → obs ≠ [] →
          ∃ t2 : Table, Update d t (some i) = some (0, t2) := by
  refine ⟨rfl, ?_, ?_⟩
  · intro i h
    unfold Update
    rcases h with h | h
    · simp only [h]
    · cases hinfo : i.info <;> simp only [h, hinfo]
  · intro i si obs hi he hne
    cases hdiff : IsLoadBalanceInfoDiff t (some i) with
    | true => exact ⟨_, Update_of_diff d t i si obs hi he hne hdiff⟩
    | false => exact ⟨_, Update_of_not_diff d t i si obs hi he hdiff⟩

theorem Update_return_value_witness :
    Update sampleFuncs wideTable (some { info := none, endpoints := some [epA] })
        = some (-1, wideTable)
      ∧ ∃ t2 : Table,
          Update sampleFuncs wideTable (some { info := some svcX, endpoints := some [epA] })
            = some (0, t2) :=
  ⟨(Update_return_value sampleFuncs wideTable).2.1 { info := none, endpoints := some [epA] }
      (Or.inl rfl),
    (Update_return_value sampleFuncs wideTable).2.2
      { info := some svcX, endpoints := some [epA] } svcX [epA] rfl rfl (by decide)⟩

/-- C11: with a modulus `num >= 1` and the three recognised names different from one another,
`Hash` returns `MurMurHash3(input) mod num` for every name that is none of the three, and for
each recognised name that algorithm's value `mod num`; for every name whatsoever it returns a
value, and the value is less than `num`. -/
theorem Hash_dispatch (d : HashFuncs) (input : String) (num : Nat) (hash_func : String)
    (hnum : 1 ≤ num) (hd : d.DistinctNames) :
    (hash_func ≠ d.MD5HASH → hash_func ≠ d.BKDRHASH → hash_func ≠ d.FNV1AHASH →
        Hash d input num hash_func = some (d.MurMurHash3 input % num))
      ∧ Hash d input num d.MD5HASH = some (d.MD5Hash input % num)
      ∧ Hash d input num d.BKDRHASH = some (d.BKDRHash input % num)
      ∧ Hash d input num d.FNV1AHASH = some (d.FNV1aHash input % num)
      ∧ ∃ h, Hash d input num hash_func = some h ∧ h < num := by
  obtain ⟨h12, h13, h23⟩ := hd
  have hne : num ≠ 0 := by omega
  have hpos : 0 < num := by omega
  refine ⟨?_, ?_, ?_, ?_, ?_⟩
  · intro h1 h2 h3
    simp [Hash, hne, h1, h2, h3]
  · simp [Hash, hne]
  · simp [Hash, hne, Ne.symm h12]
  · simp [Hash, hne, Ne.symm h13, Ne.symm h23]
  · rw [Hash_eq_HashStrategy d input num hash_func hne]
    exact ⟨_, rfl, Nat.mod_lt _ hpos⟩

theorem Hash_dispatch_witness :
    ("crc" ≠ sampleFuncs.MD5HASH → "crc" ≠ sampleFuncs.BKDRHASH → "crc" ≠ sampleFuncs.FNV1AHASH →
        Hash sampleFuncs "svcX" 3 "crc" = some (sampleFuncs.MurMurHash3 "svcX" % 3))
      ∧ Hash sampleFuncs "svcX" 3 sampleFuncs.MD5HASH = some (sampleFuncs.MD5Hash "svcX" % 3)
      ∧ Hash sampleFuncs "svcX" 3 sampleFuncs.BKDRHASH = some (sampleFuncs.BKDRHash "svcX" % 3)
      ∧ Hash sampleFuncs "svcX" 3 sampleFuncs.FNV1AHASH
          = some (sampleFuncs.FNV1aHash "svcX" % 3)
      ∧ ∃ h, Hash sampleFuncs "svcX" 3 "crc" = some h ∧ h < 3 :=
  Hash_dispatch sampleFuncs "svcX" 3 "crc" (by decide)
    ⟨by decide, by decide, by decide⟩

/-- C12: for every index sequence `GenerateKeysAsString` returns the key it returns for the
sequence without the indices outside 0..4; a sequence of indices that are all greater than 4
gives the empty key. -/
theorem GenerateKeysAsString_ignores_out_of_range (info : SelectorInfo) (indexs : List Nat) :
    GenerateKeysAsString info indexs
        = GenerateKeysAsString info (indexs.filter fun i => decide (i ≤ 4))
      ∧ ((∀ i ∈ indexs, 4 < i) → GenerateKeysAsString info indexs = "") := by
  refine ⟨foldl_switchIndex_filter info indexs "", ?_⟩
  intro h
  unfold GenerateKeysAsString
  rw [foldl_switchIndex_filter info indexs ""]
  have hnil : (indexs.filter fun i => decide (i ≤ 4)) = [] := by
    rw [List.filter_eq_nil_iff]
    intro i hi
    have := h i hi
    simp
    omega
  rw [hnil]
  rfl

theorem GenerateKeysAsString_ignores_out_of_range_witness :
    GenerateKeysAsString svcX [5, 4294967295, 77] = "" :=
  (GenerateKeysAsString_ignores_out_of_range svcX [5, 4294967295, 77]).2 (by decide)

/-- C13: two `Update` calls with the same routing attributes (hence the same key composition
and algorithm name) that both find a difference, on any two tables and with any two non-empty
observed lists of the same length, store the same counter: the seed depends neither on the
table nor on the observed endpoints beyond their number. -/
theorem Update_seed_deterministic (d : HashFuncs) (t1 t2 : Table) (i1 i2 : LoadBalanceInfo)
    (si : SelectorInfo) (obs1 obs2 : List TrpcEndpointInfo)
    (h1i : i1.info = some si) (h1e : i1.endpoints = some obs1)
    (h2i : i2.info = some si) (h2e : i2.endpoints = some obs2)
    (hne : obs1 ≠ []) (hlen : obs1.length = obs2.length)
    (hd1 : IsLoadBalanceInfoDiff t1 (some i1) = true)
    (hd2 : IsLoadBalanceInfoDiff t2 (some i2) = true) :
    ∃ (u1 u2 : Table) (s : Nat),
      Update d t1 (some i1) = some (0, u1) ∧ Update d t2 (some i2) = some (0, u2)
        ∧ u1 si.name = some { endpoints := obs1, hash := s }
        ∧ u2 si.name = some { endpoints := obs2, hash := s } := by
  have hne2 : obs2 ≠ [] := by
    intro h
    rw [h] at hlen
    exact hne (List.length_eq_zero.mp hlen)
  refine ⟨_, _, _, Update_of_diff d t1 i1 si obs1 h1i h1e hne hd1,
    Update_of_diff d t2 i2 si obs2 h2i h2e hne2 hd2, Table.assign_same _ _ _, ?_⟩
  rw [Table.assign_same, hlen]

theorem Update_seed_deterministic_witness :
    ∃ (u1 u2 : Table) (s : Nat),
      Update sampleFuncs Table.empty (some { info := some svcX, endpoints := some [epA, epB] })
          = some (0, u1)
        ∧ Update sampleFuncs wideTable (some { info := some svcX, endpoints := some [epC, epA] })
          = some (0, u2)
        ∧ u1 svcX.name = some { endpoints := [epA, epB], hash := s }
        ∧ u2 svcX.name = some { endpoints := [epC, epA], hash := s } :=
  Update_seed_deterministic sampleFuncs Table.empty wideTable
    { info := some svcX, endpoints := some [epA, epB] }
    { info := some svcX, endpoints := some [epC, epA] } svcX [epA, epB] [epC, epA]
    rfl rfl rfl rfl (by decide) rfl (by decide) (by decide)

/-- C16 (the code at the failing input): the sequence that consists of one `Update` for `svcX`
with a present, empty endpoint list, made on the empty table, does not lead to a table whose
entries are non-empty: `Update` has no test for emptiness and goes on to `Hash` with the
modulus 0. Whatever value `h` the division would yield, the assignment that follows
stores an entry with no endpoints, and on that table `Next` fails for a service that has an
entry, at its guard for the empty list, leaving the table as it is. -/
theorem Update_empty_list_reaches_empty_entry :
    IsLoadBalanceInfoDiff Table.empty (some { info := some svcX, endpoints := some [] }) = true
      ∧ Hash sampleFuncs
          (GenerateKeysAsString svcX (loadbalance_config sampleFuncs svcX).hash_args)
          ([] : List TrpcEndpointInfo).length (loadbalance_config sampleFuncs svcX).hash_func
          = none
      ∧ runCalls sampleFuncs Table.empty
          [Call.update (some { info := some svcX, endpoints := some [] })] = none
      ∧ ∀ h : Nat,
          (Table.empty.assign svcX.name { endpoints := [], hash := h }) "svcX"
              = some { endpoints := [], hash := h }
            ∧ Next (Table.empty.assign svcX.name { endpoints := [], hash := h }) reqX
              = (-1, Table.empty.assign svcX.name { endpoints := [], hash := h }, reqX) := by
  refine ⟨by decide, rfl, rfl, ?_⟩
  intro h
  exact ⟨Table.assign_same _ _ _, by simp [Next, reqX, svcX, Table.assign]⟩

/-- C17: when a service name has an entry, it still has one after any single `Update` call
that returns (with 0 or with -1) and after any single `Next` call; `Next` always returns, and
`Update` returns unless its endpoint list is present and empty. -/
theorem entry_never_removed (d : HashFuncs) (t : Table) (name : String)
    (e : InnerEndpointInfos) (h : t name = some e) :
    (∀ (info : Option LoadBalanceInfo) (code : Int) (t2 : Table),
        Update d t info = some (code, t2) → ∃ e2, t2 name = some e2)
      ∧ (∀ info : Option LoadBalanceInfo, (∀ i, info = some i → i.endpoints ≠ some []) →
          ∃ (code : Int) (t2 : Table), Update d t info = some (code, t2))
      ∧ ∀ r : LoadBalanceResult, ∃ e2, (Next t r).2.1 name = some e2 := by
  refine ⟨?_, Update_returns d t, ?_⟩
  · intro info code t2 hu
    rcases Update_cases d t info code t2 hu with h2 | ⟨i, si, obs, s, _, _, _, _, h2⟩
    · exact ⟨e, by rw [h2]; exact h⟩
    · rw [h2]
      by_cases hn : name = si.name
      · exact ⟨_, by rw [hn]; exact Table.assign_same _ _ _⟩
      · exact ⟨e, by rw [Table.assign_other _ _ _ _ hn]; exact h⟩
  · intro r
    rcases Next_cases t r with h2 | ⟨ri, e0, _, _, _, h2⟩
    · exact ⟨e, by rw [h2]; exact h⟩
    · rw [h2]
      by_cases hn : name = ri.name
      · exact ⟨_, by rw [hn]; exact Table.assign_same _ _ _⟩
      · exact ⟨e, by rw [Table.assign_other _ _ _ _ hn]; exact h⟩

theorem entry_never_removed_witness :
    ∃ e2, (Next wideTable reqX).2.1 "svcX" = some e2 :=
  (entry_never_removed sampleFuncs wideTable "svcX"
    { endpoints := [epA, epB, epC], hash := 2 ^ 32 } rfl).2.2 reqX

/-- C18: an `Update` or `Next` call made for the service name `s` leaves the lookup of every
other name as it was: an entry of another name keeps its endpoint list and its counter, and a
name without an entry still has none. -/
theorem other_services_untouched (d : HashFuncs) (t : Table) :
    (∀ (i : LoadBalanceInfo) (si : SelectorInfo) (code : Int) (t2 : Table),
        i.info = some si → Update d t (some i) = some (code, t2) →
        ∀ n, n ≠ si.name → t2 n = t n)
      ∧ ∀ (r : LoadBalanceResult) (ri : SelectorInfo), r.info = some ri →
          ∀ n, n ≠ ri.name → (Next t r).2.1 n = t n := by
  constructor
  · intro i si code t2 hi hu n hn
    rcases Update_cases d t (some i) code t2 hu with h2 | ⟨i2, si2, obs, s, hii, hi2, _, _, h2⟩
    · rw [h2]
    · have hii2 : i = i2 := Option.some.inj hii
      subst hii2
      rw [hi] at hi2
      have hsi : si = si2 := Option.some.inj hi2
      subst hsi
      rw [h2, Table.assign_other _ _ _ _ hn]
  · intro r ri hr n hn
    rcases Next_cases t r with h2 | ⟨ri2, e0, hr2, _, _, h2⟩
    · rw [h2]
    · rw [hr] at hr2
      have hri : ri = ri2 := Option.some.inj hr2
      subst hri
      rw [h2, Table.assign_other _ _ _ _ hn]

theorem other_services_untouched_witness :
    (Next wideTable reqX).2.1 "svcY" = wideTable "svcY" :=
  (other_services_untouched sampleFuncs wideTable).2 reqX svcX rfl "svcY" (by decide)

/-- C19: for an index `i` in 0..4 the key `GenerateKeysAsString` generates for the one-element
sequence `[i]` is the concatenation of the string representations of the attributes
`i, i+1, ..., 4` in that order; `[0]` gives name, policy, requested count, load-balance name and
is-from-workflow, `[4]` gives is-from-workflow alone; and the key of a sequence is the
concatenation of the keys of its one-element sequences. -/
theorem GenerateKeysAsString_fall_through (info : SelectorInfo) :
    (∀ i, i ≤ 4 → GenerateKeysAsString info [i] = ComposeKey info (List.range' i (5 - i)))
      ∧ GenerateKeysAsString info [0]
          = info.name ++ toString info.policy ++ toString info.select_num
              ++ info.load_balance_name
              ++ toString (if info.is_from_workflow then 1 else 0 : Int)
      ∧ GenerateKeysAsString info [4]
          = toString (if info.is_from_workflow then 1 else 0 : Int)
      ∧ ∀ indexs : List Nat, GenerateKeysAsString info indexs
          = String.join (indexs.map fun i => GenerateKeysAsString info [i]) := by
  refine ⟨?_, ?_, ?_, ?_⟩
  · intro i hi
    interval_cases i <;>
      simp [GenerateKeysAsString, switchIndex, ComposeKey, attributeString, List.range',
        String.append_assoc]
  · simp [GenerateKeysAsString, switchIndex, String.append_assoc]
  · simp [GenerateKeysAsString, switchIndex]
  · intro indexs
    induction indexs with
    | nil => rfl
    | cons i rest ih =>
      rw [GenerateKeysAsString_cons, ih]
      simp only [String.join, List.map_cons, List.foldl_cons, String.empty_append]
      rw [foldl_append_start _ (GenerateKeysAsString info [i])]

theorem GenerateKeysAsString_fall_through_witness :
    GenerateKeysAsString svcX [2] = ComposeKey svcX (List.range' 2 (5 - 2)) :=
  (GenerateKeysAsString_fall_through svcX).1 2 (by decide)

end trpc
